import Mathlib

/-
Verification development for the rumpbot execution-supervision core.

The definitions below are a shallow embedding of the TypeScript source:
  - src/agents/orchestrator.ts  (plan parsing/validation, worker cap,
    sequential and dependency-wave execution, stall detection)
  - src/agents/executor.ts      (transient-error retry, stall warning/kill)
  - src/agents/worker.ts        (single-unit runner)
  - src/agents/agent-registry.ts (live agent registry with event emission)
  - src/claude/invoker.ts       (subprocess result parsing and fallbacks)
  - src/agents/chat-agent.ts    (action-block extraction)

Machine numbers are modelled as Nat/Int/ℚ; JavaScript objects become
structures; mutable object graphs (the registry and its emitted event
copies) are modelled with an explicit heap of array cells so that the
sharing behaviour of shallow copies is captured faithfully.  Calls to
JSON.parse are abstracted as oracle parameters (String → Option _),
since the invoker treats the parser as an opaque throwing function.
-/

namespace Rumpbot

/-! ## Data model (src/agents/types.ts) -/

/-- `WorkerTask` from types.ts.  The optional `dependsOn` array is
modelled with default `[]`, matching the source's `w.dependsOn || []`
reads. -/
structure WorkerTask where
  id : String
  description : String
  prompt : String
  dependsOn : List String := []
deriving Repr, DecidableEq

/-- `WorkerResult` from types.ts. -/
structure WorkerResult where
  taskId : String
  success : Bool
  result : String
  costUsd : Option ℚ := none
  duration : Option Nat := none
deriving Repr, DecidableEq

/-- `OrchestratorPlan` from types.ts.  The literal type tag is kept as a
string field so that `validatePlan`'s check on it is expressible. -/
structure OrchestratorPlan where
  type : String
  summary : String
  workers : List WorkerTask
  sequential : Bool
deriving Repr, DecidableEq

/-! ## Plan validation and the worker cap (orchestrator.ts) -/

/-- `MAX_WORKERS` in orchestrator.ts. -/
def MAX_WORKERS : Nat := 10

/-- `validatePlan` in orchestrator.ts: rejects a plan whose type tag is
not "plan", or in which some worker has a falsy (empty) id or prompt.
The `Array.isArray(plan.workers)` check is vacuous in the typed model. -/
def validatePlan (plan : OrchestratorPlan) : Except String OrchestratorPlan :=
  if plan.type ≠ "plan" then
    .error "Invalid plan: missing type or workers array"
  else
    match plan.workers.find? (fun w => w.id == "" || w.prompt == "") with
    | some _ => .error "Invalid worker task: missing id or prompt"
    | none => .ok plan

/-- The worker-cap enforcement in `Orchestrator.execute`:
`plan.workers = plan.workers.slice(0, MAX_WORKERS)` when the plan
requests more than `MAX_WORKERS` units. -/
def capWorkers (plan : OrchestratorPlan) : OrchestratorPlan :=
  if plan.workers.length > MAX_WORKERS then
    { plan with workers := plan.workers.take MAX_WORKERS }
  else plan

/-! ## Worker execution loops (`Orchestrator.execute`, phase 2)

`executeWithMonitoring` always resolves (its catch handler resolves a
failure result), so a single unit execution is modelled as a function
`f : WorkerTask → WorkerResult`.  The external cancellation signal is
modelled as an oracle `abort : Nat → Bool` consulted once per loop
iteration, matching the `opts.abortSignal?.aborted` checks. -/

/-- The sequential mode: one worker at a time, stopping early if the
abort signal is set at the top of an iteration. -/
def runSequentialAux (f : WorkerTask → WorkerResult) (abort : Nat → Bool) :
    List WorkerTask → Nat → List WorkerResult
  | [], _ => []
  | t :: rest, idx =>
    if abort idx then []
    else f t :: runSequentialAux f abort rest (idx + 1)

/-- Entry point for the sequential mode of `Orchestrator.execute`. -/
def runSequential (plan : OrchestratorPlan) (f : WorkerTask → WorkerResult)
    (abort : Nat → Bool) : List WorkerResult :=
  runSequentialAux f abort plan.workers 0

/-- The ready-set computation of the dependency wave loop:
workers still remaining whose declared dependencies are all in the
completed set (`(w.dependsOn || []).every((dep) => completed.has(dep))`). -/
def readyTasks (workers : List WorkerTask) (remaining completed : Finset String) :
    List WorkerTask :=
  workers.filter
    (fun w => decide (w.id ∈ remaining) && w.dependsOn.all (fun d => decide (d ∈ completed)))

/-- Id set of a list of tasks (the wave just executed). -/
def idsOf (ts : List WorkerTask) : Finset String :=
  (ts.map (fun t => t.id)).toFinset

/-- The dependency-respecting parallel wave loop of `Orchestrator.execute`
(the `else` branch of `plan.sequential`): repeatedly compute the ready
subset, run it as one wave, mark its ids completed, and loop; stop when
nothing remains, when the abort signal fires, or when no task is ready
while tasks remain (dependency deadlock — `break`, no error). -/
def runParallelAux (workers : List WorkerTask) (f : WorkerTask → WorkerResult)
    (abort : Nat → Bool) (k : Nat) (remaining completed : Finset String) :
    List WorkerResult :=
  if hrem : remaining = ∅ then []
  else if abort k then []
  else if hready : readyTasks workers remaining completed = [] then []
  else
    (readyTasks workers remaining completed).map f ++
      runParallelAux workers f abort (k + 1)
        (remaining \ idsOf (readyTasks workers remaining completed))
        (completed ∪ idsOf (readyTasks workers remaining completed))
termination_by remaining.card
decreasing_by
  apply Finset.card_lt_card
  apply Finset.sdiff_ssubset
  · intro x hx
    simp only [idsOf, List.mem_toFinset, List.mem_map] at hx
    obtain ⟨w, hw, rfl⟩ := hx
    simp only [readyTasks, List.mem_filter, Bool.and_eq_true, decide_eq_true_eq] at hw
    exact hw.2.1
  · obtain ⟨w, hw⟩ := List.exists_mem_of_ne_nil _ hready
    refine ⟨w.id, ?_⟩
    simp only [idsOf, List.mem_toFinset, List.mem_map]
    exact ⟨w, hw, rfl⟩

/-- Entry point for the parallel mode of `Orchestrator.execute`:
`remaining` starts as the set of all plan ids, `completed` empty. -/
def runParallel (plan : OrchestratorPlan) (f : WorkerTask → WorkerResult)
    (abort : Nat → Bool) : List WorkerResult :=
  runParallelAux plan.workers f abort 0 (plan.workers.map (fun w => w.id)).toFinset ∅

/-! ### Concrete sample inputs used by witness theorems -/

/-- A fixed unit-execution outcome used to instantiate the execution
loops on concrete plans. -/
def sampleRun (t : WorkerTask) : WorkerResult :=
  { taskId := t.id, success := true, result := "done" }

/-- A plan in which worker "a" declares a dependency id that is absent
from the plan, while worker "b" has no dependencies. -/
def deadlockPlan : OrchestratorPlan :=
  { type := "plan"
    summary := "two workers, one stuck"
    workers :=
      [ { id := "a", description := "stuck", prompt := "pa", dependsOn := ["missing"] }
      , { id := "b", description := "free", prompt := "pb" } ]
    sequential := false }

/-- A plan requesting 11 workers, one over the cap. -/
def bigPlan : OrchestratorPlan :=
  { type := "plan"
    summary := "too many workers"
    workers := (List.range 11).map
      (fun i => { id := toString i, description := "w", prompt := "p" })
    sequential := true }

/-- A plan with two workers sharing the id "a" (both with non-empty
ids and prompts). -/
def dupIdPlan : OrchestratorPlan :=
  { type := "plan"
    summary := "duplicate ids"
    workers :=
      [ { id := "a", description := "w1", prompt := "p1" }
      , { id := "a", description := "w2", prompt := "p2" } ]
    sequential := true }

/-- A plan in which a worker has an empty prompt. -/
def emptyPromptPlan : OrchestratorPlan :=
  { type := "plan"
    summary := "empty prompt"
    workers := [ { id := "x", description := "d", prompt := "" } ]
    sequential := false }

/-! ## Process Invoker results (src/claude/invoker.ts) and the
Work Supervisor retry/stall logic (executor.ts, worker.ts) -/

/-- `ClaudeResult` from invoker.ts. -/
structure ClaudeResult where
  result : String
  sessionId : String
  costUsd : Option ℚ := none
  duration : Option Int := none
  isError : Bool
deriving Repr, DecidableEq

/-- `ExecutorResult` from types.ts (direct-execution strategy). -/
structure ExecutorResult where
  success : Bool
  result : String
  costUsd : ℚ
  durationMs : Nat
  needsRestart : Bool
deriving Repr, DecidableEq

/-- Substring search on char lists: does `pat` occur inside `hay`? -/
def containsSub (hay pat : List Char) : Bool :=
  if pat.isPrefixOf hay then true
  else
    match hay with
    | [] => false
    | _ :: t => containsSub t pat

/-- JS `hay.includes(pat)` on strings. -/
def strIncludes (hay pat : String) : Bool :=
  containsSub hay.toList pat.toList

/-- JS `s.toLowerCase()` (character-wise lowering). -/
def strToLower (s : String) : String :=
  String.mk (s.toList.map Char.toLower)

/-- `TRANSIENT_ERROR_PATTERNS` from executor.ts. -/
def TRANSIENT_ERROR_PATTERNS : List String :=
  [ "rate limit", "429", "timed out", "timeout", "ECONNRESET", "ECONNREFUSED"
  , "socket hang up", "network error", "overloaded", "503", "502" ]

/-- `isTransientError` from executor.ts: case-insensitive substring
match against the known transient patterns. -/
def isTransientError (errorMsg : String) : Bool :=
  TRANSIENT_ERROR_PATTERNS.any (fun p => strIncludes (strToLower errorMsg) (strToLower p))

/-- `detectRestartNeed` from executor.ts. -/
def detectRestartNeed (output : String) : Bool :=
  let lower := strToLower output
  strIncludes lower "restart needed" ||
    strIncludes lower "service restart" ||
    strIncludes lower "restart tiffbot" ||
    strIncludes lower "note: service restart needed"

/-- Building an `ExecutorResult` from a successful invocation
(`success: !result.isError, costUsd: result.costUsd || 0, ...` in
`Executor.invokeWithRetry`); the wall-clock duration is a parameter. -/
def execResultOf (r : ClaudeResult) (durationMs : Nat) : ExecutorResult :=
  { success := !r.isError
    result := r.result
    costUsd := (r.costUsd.getD 0)
    durationMs := durationMs
    needsRestart := detectRestartNeed r.result }

/-- `Executor.invokeWithRetry`: the two possible invocations are
modelled as oracles `first`/`second` (`.error msg` = the call threw).
Returns the surfaced outcome and the number of invocations performed.
A transient first failure is retried once (after a fixed 3s delay, not
modelled); a non-transient failure propagates immediately. -/
def invokeWithRetry (first second : Except String ClaudeResult) (durationMs : Nat) :
    Except String ExecutorResult × Nat :=
  match first with
  | .ok r => (.ok (execResultOf r durationMs), 1)
  | .error msg =>
    if isTransientError msg then
      match second with
      | .ok r => (.ok (execResultOf r durationMs), 2)
      | .error m2 => (.error m2, 2)
    else (.error msg, 1)

/-- `WorkerAgent.execute` (worker.ts): a single invocation, never
re-thrown — any error is converted into a structured failure result.
Returns the result and the number of invocations performed. -/
def workerExecute (task : WorkerTask) (call : Except String ClaudeResult)
    (durationMs : Nat) : WorkerResult × Nat :=
  match call with
  | .ok r =>
    ({ taskId := task.id, success := !r.isError, result := r.result
       costUsd := r.costUsd, duration := some durationMs }, 1)
  | .error msg =>
    ({ taskId := task.id, success := false, result := "Worker error: " ++ msg
       costUsd := none, duration := some durationMs }, 1)

/-- A concrete task for witnesses. -/
def wTask : WorkerTask := { id := "t1", description := "demo", prompt := "p" }

/-! ## Stall detection (executor.ts / orchestrator.ts) -/

/-- `STALL_WARNING_MS` (both executor.ts and orchestrator.ts). -/
def STALL_WARNING_MS : Nat := 120000

/-- `STALL_KILL_MS` (executor.ts only). -/
def STALL_KILL_MS : Nat := 300000

/-- Observable outcome of one stall-check interval tick. -/
structure StallTickResult where
  stallWarned : Bool
  warningEmitted : Bool
  killed : Bool
deriving Repr, DecidableEq

/-- One tick of the Executor's `stallCheck` interval (executor.ts,
direct-execution strategy): warn once at the warning threshold, abort
(`execAbort.abort()`) at the kill threshold. `silentFor` is
`Date.now() - lastActivityTime`. -/
def executorStallTick (silentFor : Nat) (stallWarned : Bool) : StallTickResult :=
  let warn := decide (silentFor ≥ STALL_WARNING_MS) && !stallWarned
  { stallWarned := stallWarned || warn
    warningEmitted := warn
    killed := decide (silentFor ≥ STALL_KILL_MS) }

/-- One tick of the per-worker `stallCheck` interval in
`Orchestrator.execute` (plan-then-delegate strategy): it only warns —
there is no kill branch in this strategy's stall check. -/
def orchestratorStallTick (silentFor : Nat) (stallWarned : Bool) : StallTickResult :=
  let warn := decide (silentFor ≥ STALL_WARNING_MS) && !stallWarned
  { stallWarned := stallWarned || warn
    warningEmitted := warn
    killed := false }

/-- Observable outcome of the `onActivity` handler (both strategies):
re-arms the stall warning and emits an "active again" notice iff a
warning had been issued. -/
structure ActivityResult where
  stallWarned : Bool
  resumedEmitted : Bool
deriving Repr, DecidableEq

/-- The `onActivity` handler shared by both strategies. -/
def onActivity (stallWarned : Bool) : ActivityResult :=
  { stallWarned := false, resumedEmitted := stallWarned }

/-! ## Subprocess output parsing (src/claude/invoker.ts)

JSON values inside parsed objects are modelled by `JVal`; a parsed
top-level payload is a single object or an array of objects (`JData`).
`JSON.parse` itself is abstracted as an oracle
`jp : String → Option JData` (`none` = the parse threw). -/

/-- A JSON field value, with its JS truthiness and its
`JSON.stringify` rendering for the non-string case. -/
inductive JVal where
  | str (s : String)
  | num (q : ℚ)
  | jbool (b : Bool)
  | jnull
  | objOrArr (stringified : String)
deriving Repr, DecidableEq

/-- JS truthiness of a `JVal`. -/
def JVal.truthy : JVal → Bool
  | .str s => decide (s ≠ "")
  | .num q => decide (q ≠ 0)
  | .jbool b => b
  | .jnull => false
  | .objOrArr _ => true

/-- `typeof v === "string" ? v : JSON.stringify(v)`. -/
def JVal.shownText : JVal → String
  | .str s => s
  | .num q => toString q
  | .jbool b => if b then "true" else "false"
  | .jnull => "null"
  | .objOrArr s => s

/-- The fields of a parsed result object that `extractResult` reads
(`none` = the field is absent). -/
structure JObj where
  type : Option String := none
  subtype : Option String := none
  result : Option JVal := none
  content : Option JVal := none
  text : Option String := none
  numturns : Option Int := none
  num_turns : Option Int := none
  totalcostusd : Option ℚ := none
  total_cost_usd : Option ℚ := none
  cost_usd : Option ℚ := none
  sessionid : Option String := none
  session_id : Option String := none
  durationms : Option Int := none
  duration_ms : Option Int := none
  is_error : Option Bool := none
  iserror : Option Bool := none
deriving Repr, DecidableEq

/-- A parsed payload: single object, or array form from verbose mode. -/
inductive JData where
  | obj (o : JObj)
  | arr (items : List JObj)
deriving Repr, DecidableEq

/-- JS truthiness filter on an optional number (`0` is falsy). -/
def truthyInt (a : Option Int) : Option Int :=
  match a with
  | some x => if x = 0 then none else some x
  | none => none

/-- JS truthiness filter on an optional rational. -/
def truthyQ (a : Option ℚ) : Option ℚ :=
  match a with
  | some x => if x = 0 then none else some x
  | none => none

/-- JS truthiness filter on an optional string (`""` is falsy). -/
def truthyStr (a : Option String) : Option String :=
  match a with
  | some s => if s = "" then none else some s
  | none => none

/-- JS `a || b` on optional numbers: `b` is taken verbatim when `a`
is falsy. -/
def jsOrInt (a b : Option Int) : Option Int :=
  match truthyInt a with
  | some x => some x
  | none => b

/-- `data.numturns || data.num_turns` restricted to its truthy result
(the final `|| "unknown"` fallback is applied at the use site). -/
def shownTurns (o : JObj) : Option Int :=
  match truthyInt o.numturns with
  | some x => some x
  | none => truthyInt o.num_turns

/-- `data.totalcostusd || data.total_cost_usd || data.cost_usd`. -/
def costRaw (o : JObj) : Option ℚ :=
  match truthyQ o.totalcostusd with
  | some x => some x
  | none =>
    match truthyQ o.total_cost_usd with
    | some y => some y
    | none => o.cost_usd

/-- `data.sessionid || data.session_id || ""`. -/
def sessionIdOf (o : JObj) : String :=
  match truthyStr o.sessionid with
  | some s => s
  | none =>
    match truthyStr o.session_id with
    | some t => t
    | none => ""

/-- `data.is_error || data.iserror || false`. -/
def isErrorOf (o : JObj) : Bool :=
  (o.is_error == some true) || (o.iserror == some true)

/-- `Number(cost).toFixed(2)` for a non-negative rational cost: round
to cents (ties away from zero for positive inputs) and print with two
fractional digits. -/
def toFixed2 (q : ℚ) : String :=
  let cents : Int := ⌊q * 100 + 1 / 2⌋
  let frac := (cents % 100).natAbs
  toString (cents / 100) ++ "." ++
    (if frac < 10 then "0" ++ toString frac else toString frac)

/-- `data.result || data.content` (the second operand is taken verbatim
when the first is falsy). -/
def jsResultVal (o : JObj) : Option JVal :=
  match o.result with
  | some v => if v.truthy then some v else o.content
  | none => o.content

/-- The single-object branch of `extractResult` (invoker.ts):
a subtype marking the max-turns terminal state yields a synthesized
non-error result mentioning the turn count and (when truthy) the cost;
a readable `result`/`content` value yields its text; otherwise a
placeholder text is synthesized. -/
def extractObj (o : JObj) : ClaudeResult :=
  if o.subtype == some "errormaxturns" then
    let turnsStr := match shownTurns o with
      | some n => toString n
      | none => "unknown"
    let cost := costRaw o
    let costStr := match cost with
      | some c => if c = 0 then "" else " (cost: $" ++ (toFixed2 c ++ ")")
      | none => ""
    { result := "Claude reached the maximum number of turns (" ++
        (turnsStr ++ (") for this request" ++ (costStr ++
        ". The work may be partially complete — try asking about the current state or continue the conversation.")))
      sessionId := sessionIdOf o
      costUsd := cost
      duration := jsOrInt o.durationms o.duration_ms
      isError := false }
  else
    match jsResultVal o with
    | some v =>
      if v.truthy then
        { result := v.shownText
          sessionId := sessionIdOf o
          costUsd := costRaw o
          duration := jsOrInt o.durationms o.duration_ms
          isError := isErrorOf o }
      else
        { result := "Claude finished but returned no readable text (type: " ++
            ((match truthyStr o.subtype with
              | some s => s
              | none => match truthyStr o.type with
                | some t => t
                | none => "unknown") ++
            "). The task may still have been completed.")
          sessionId := sessionIdOf o
          costUsd := costRaw o
          duration := jsOrInt o.durationms o.duration_ms
          isError := isErrorOf o }
    | none =>
      { result := "Claude finished but returned no readable text (type: " ++
          ((match truthyStr o.subtype with
            | some s => s
            | none => match truthyStr o.type with
              | some t => t
              | none => "unknown") ++
          "). The task may still have been completed.")
        sessionId := sessionIdOf o
        costUsd := costRaw o
        duration := jsOrInt o.durationms o.duration_ms
        isError := isErrorOf o }

/-- `extractResult` (invoker.ts): array form finds the entry tagged
"result", else joins textual fragments, else synthesizes an error
result; single objects go through `extractObj`. -/
def extractResult : JData → ClaudeResult
  | .obj o => extractObj o
  | .arr items =>
    match items.find? (fun it => it.type == some "result") with
    | some entry => extractObj entry
    | none =>
      let text := (items.map (fun b => b.text.getD "")).foldl (fun acc s => acc ++ s) ""
      if text ≠ "" then
        { result := text, sessionId := "", isError := false }
      else
        { result := "No readable response from Claude.", sessionId := "", isError := true }

/-! ### The JSON-extraction ladder of `parseClaudeOutput` -/

/-- The open-brace character (written by code point to keep brace
characters out of the literals). -/
def lbraceCh : Char := Char.ofNat 123

/-- The close-brace character. -/
def rbraceCh : Char := Char.ofNat 125

/-- JS `String.prototype.trim` modelled character-wise. -/
def jsTrim (s : String) : String :=
  String.mk (((s.toList.dropWhile Char.isWhitespace).reverse.dropWhile
    Char.isWhitespace).reverse)

/-- Last index of a character in a char list (JS `lastIndexOf`). -/
def lastIndexOfCh (cs : List Char) (c : Char) : Option Nat :=
  match cs.reverse.findIdx? (fun x => x == c) with
  | some i => some (cs.length - 1 - i)
  | none => none

/-- `Math.max(trimmed.lastIndexOf(close-brace), trimmed.lastIndexOf("]"))`
with -1 (absence) modelled by `none`. -/
def lastCloseIdx (cs : List Char) : Option Nat :=
  match lastIndexOfCh cs rbraceCh, lastIndexOfCh cs ']' with
  | none, none => none
  | some i, none => some i
  | none, some j => some j
  | some i, some j => some (max i j)

/-- The backward scan of invoker.ts: starting at index `i` with the
given depth, walk left updating the depth at each close/open character,
returning the index where the depth balances to zero (`none` if the
scan runs past the start of the text). -/
def scanBackBalanced (cs : List Char) (oc cc : Char) : Nat → Int → Option Nat
  | i, depth =>
    let c := cs.getD i ' '
    let d1 := if c = cc then depth + 1 else depth
    let d2 := if c = oc then d1 - 1 else d1
    if d2 = 0 then some i
    else
      match i with
      | 0 => none
      | j + 1 => scanBackBalanced cs oc cc j d2

/-- `parseClaudeOutput` (invoker.ts): try the whole trimmed output,
else locate the last close bracket and scan back to its balanced
opener, then parse that slice; a thrown `JSON.parse` on the slice
propagates as an error. -/
def parseClaudeOutput (jp : String → Option JData) (raw : String) :
    Except String ClaudeResult :=
  let trimmed := jsTrim raw
  match jp trimmed with
  | some data => .ok (extractResult data)
  | none =>
    match lastCloseIdx trimmed.toList with
    | none => .error "No JSON found in Claude output"
    | some lastClose =>
      let cs := trimmed.toList
      let closeChar := cs.getD lastClose ' '
      let openChar := if closeChar = rbraceCh then lbraceCh else '['
      match scanBackBalanced cs openChar closeChar lastClose 0 with
      | none => .error "Malformed JSON in Claude output"
      | some start =>
        let jsonStr := String.mk ((cs.drop start).take (lastClose + 1 - start))
        match jp jsonStr with
        | some data => .ok (extractResult data)
        | none => .error "Unexpected token in JSON"

/-- The `close` handler of `invokeClaudeInternal` (invoker.ts),
as a function of the process outcome: cancellation check, the
non-zero-exit/empty-stdout rejection (with rate-limit classification),
then parsing with the raw-output fallback when parsing fails but the
trimmed stdout is non-empty. -/
def handleClose (jp : String → Option JData) (stdout stderr : String)
    (code : Int) (aborted : Bool) (sessionId : Option String) :
    Except String ClaudeResult :=
  if aborted then .error "Cancelled"
  else if code ≠ 0 ∧ stdout = "" then
    let errMsg := if stderr = "" then "Claude CLI exited with code " ++ toString code
      else stderr
    if strIncludes stderr "rate limit" || strIncludes stderr "429" then
      .error ("Rate limited: " ++ errMsg)
    else .error errMsg
  else
    match parseClaudeOutput jp stdout with
    | .ok r => .ok r
    | .error e =>
      if jsTrim stdout ≠ "" then
        .ok { result := jsTrim stdout, sessionId := sessionId.getD "", isError := false }
      else .error e

/-- A parsed object in the max-turns terminal shape, with 50 turns and
a $1.25 accumulated cost. -/
def maxTurnsObj : JObj :=
  { subtype := some "errormaxturns", numturns := some 50
    total_cost_usd := some (2 : ℚ), session_id := some "sess-1" }

/-- A plain-text subprocess output with no JSON anywhere. -/
def plainStdout : String := "plain text output"

/-! ## Chat-agent action-block extraction (src/agents/chat-agent.ts) -/

/-- `WorkRequest` from types.ts (tags kept as strings). -/
structure WorkRequest where
  type : String
  task : String
  context : String
  urgency : String
deriving Repr, DecidableEq

/-- `ChatAgentResponse` from types.ts. -/
structure ChatAgentResponse where
  chatText : String
  action : Option WorkRequest
deriving Repr, DecidableEq

/-- The action block opening delimiter. -/
def ACTION_OPEN : String := "<RUMPBOT_ACTION>"

/-- The action block closing delimiter. -/
def ACTION_CLOSE : String := "</RUMPBOT_ACTION>"

/-- Index of the first occurrence of `pat` in `hay` (the leftmost match
of the non-greedy action-block regex starts at the first occurrence of
the opening tag, and its body ends at the first following closing
tag). -/
def findSubstrIdx (hay pat : List Char) : Option Nat :=
  if pat.isPrefixOf hay then some 0
  else
    match hay with
    | [] => none
    | _ :: t => (findSubstrIdx t pat).map (· + 1)

/-- `parseChatResponse` (chat-agent.ts): find the first action block;
without one (or with an unparsable/invalid payload) the whole text is
chat-only; with an accepted `work_request` payload, return the trimmed
text outside the block — or the fixed placeholder when that is empty —
together with the work request.  `JSON.parse` of the payload is
abstracted by the oracle `jp`. -/
def parseChatResponse (jp : String → Option WorkRequest) (text : String) :
    ChatAgentResponse :=
  let cs := text.toList
  match findSubstrIdx cs ACTION_OPEN.toList with
  | none => { chatText := text, action := none }
  | some i =>
    let rest := cs.drop (i + ACTION_OPEN.toList.length)
    match findSubstrIdx rest ACTION_CLOSE.toList with
    | none => { chatText := text, action := none }
    | some k =>
      let inner := String.mk (rest.take k)
      let outside := jsTrim (String.mk
        (cs.take i ++ rest.drop (k + ACTION_CLOSE.toList.length)))
      match jp (jsTrim inner) with
      | none => { chatText := text, action := none }
      | some action =>
        if action.type ≠ "work_request" ∨ action.task = "" then
          { chatText := text, action := none }
        else
          { chatText := if outside = "" then "Working on it..." else outside
            action := some action }

/-- An accepted work request used in chat-parse scenarios. -/
def wr0 : WorkRequest :=
  { type := "work_request", task := "fix the bug", context := "", urgency := "normal" }

/-- The JSON payload of the action block (braces escaped as code
points). -/
def actionPayload : String :=
  "\x7b\"type\":\"work_request\",\"task\":\"fix the bug\"\x7d"

/-- A concrete `JSON.parse` oracle accepting exactly `actionPayload`. -/
def chatJson : String → Option WorkRequest :=
  fun s => if s = actionPayload then some wr0 else none

/-- A chat result whose text outside the action block is whitespace
only. -/
def blockOnlyText : String :=
  " " ++ (ACTION_OPEN ++ (actionPayload ++ ACTION_CLOSE))

/-- A chat result with real text before and after the action block. -/
def chatText2 : String :=
  "On it! " ++ (ACTION_OPEN ++ (actionPayload ++ (ACTION_CLOSE ++ "Done.")))

/-! ## Live Agent Registry (src/agents/agent-registry.ts)

JS objects hold their `recentOutput` array by reference; `{ ...agent }`
copies the scalar fields but shares the array, while
`{ ...agent, recentOutput: [...agent.recentOutput] }` also copies the
array.  To capture this the registry model stores arrays in an explicit
heap (`heap : List (List String)`); an entry's `outRef` is the index of
its cell, and emitted events carry entry values whose `outRef` either
aliases the live cell (shallow copy) or points to a freshly allocated
cell (deep-enough copy). -/

/-- `MAX_OUTPUT_LINES` from agent-registry.ts. -/
def MAX_OUTPUT_LINES : Nat := 30

/-- `MAX_COMPLETED_HISTORY` from agent-registry.ts. -/
def MAX_COMPLETED_HISTORY : Nat := 50

/-- An `AgentEntry`, with the rolling output buffer held by reference
(`outRef` indexes a heap cell). -/
structure AgentEntry where
  id : String
  role : String
  chatId : Int
  description : String
  phase : String
  startedAt : Nat
  lastActivityAt : Nat
  completedAt : Option Nat := none
  parentId : Option String := none
  success : Option Bool := none
  costUsd : Option ℚ := none
  progress : Option String := none
  outRef : Nat
deriving Repr, DecidableEq

/-- A registry change event: kind plus the entry value delivered to
observers. -/
structure RegistryEvent where
  type : String
  agent : AgentEntry
  timestamp : Nat
deriving Repr, DecidableEq

/-- The registry's mutable state. -/
structure RegistryState where
  heap : List (List String) := []
  agents : List (String × AgentEntry) := []
  completedHistory : List AgentEntry := []
  nextId : Nat := 1
deriving Repr, DecidableEq

/-- Digit characters for radix 36. -/
def base36Char (n : Nat) : Char :=
  if n < 10 then Char.ofNat (48 + n) else Char.ofNat (87 + n)

/-- Radix-36 digits of a positive number. -/
def toBase36Go (n : Nat) : List Char :=
  if h : n = 0 then []
  else toBase36Go (n / 36) ++ [base36Char (n % 36)]
termination_by n
decreasing_by exact Nat.div_lt_self (Nat.pos_of_ne_zero h) (by decide)

/-- JS `n.toString(36)`. -/
def toBase36 (n : Nat) : String :=
  if n = 0 then "0" else String.mk (toBase36Go n)

/-- `generateId`: role, a global counter, and the time in radix 36. -/
def generateId (role : String) (counter : Nat) (now : Nat) : String :=
  role ++ "-" ++ toString counter ++ "-" ++ toBase36 now

/-- Map lookup (`this.agents.get(id)`). -/
def lookupAgent (st : RegistryState) (id : String) : Option AgentEntry :=
  (st.agents.find? (fun p => p.1 == id)).map (fun p => p.2)

/-- Map overwrite of an existing key. -/
def setAgent (st : RegistryState) (id : String) (e : AgentEntry) : RegistryState :=
  { st with agents := st.agents.map (fun p => if p.1 == id then (p.1, e) else p) }

/-- `register`: allocate a fresh empty output cell, create the entry,
and emit "agent-registered" with a SHALLOW copy of the entry (the event
shares the entry's `outRef`). -/
def registerOp (st : RegistryState) (role : String) (chatId : Int)
    (description phase : String) (parentId : Option String) (now : Nat) :
    RegistryState × String × RegistryEvent :=
  let id := generateId role st.nextId now
  let ref := st.heap.length
  let agent : AgentEntry :=
    { id := id, role := role, chatId := chatId, description := description
      phase := phase, startedAt := now, lastActivityAt := now
      parentId := parentId, outRef := ref }
  let st2 : RegistryState :=
    { st with heap := st.heap ++ [[]]
              agents := st.agents ++ [(id, agent)]
              nextId := st.nextId + 1 }
  (st2, id, { type := "agent-registered", agent := agent, timestamp := now })

/-- The updatable field set of `update` (a `Partial<Pick<...>>`). -/
structure UpdateFields where
  phase : Option String := none
  progress : Option String := none
  lastActivityAt : Option Nat := none
  success : Option Bool := none
  costUsd : Option ℚ := none
  completedAt : Option Nat := none
  description : Option String := none
deriving Repr, DecidableEq

/-- `Object.assign(agent, updates)` for the allowed field set. -/
def applyUpdates (e : AgentEntry) (u : UpdateFields) : AgentEntry :=
  { e with
    phase := u.phase.getD e.phase
    progress := match u.progress with | some p => some p | none => e.progress
    lastActivityAt := u.lastActivityAt.getD e.lastActivityAt
    success := match u.success with | some s => some s | none => e.success
    costUsd := match u.costUsd with | some c => some c | none => e.costUsd
    completedAt := match u.completedAt with | some c => some c | none => e.completedAt
    description := u.description.getD e.description }

/-- `update`: no-op for an unknown id; otherwise merge the fields,
refresh `lastActivityAt` unless the caller supplied a truthy one, and
emit "agent-updated" carrying a copy with a FRESH output cell
(`recentOutput: [...agent.recentOutput]`). -/
def updateOp (st : RegistryState) (id : String) (u : UpdateFields) (now : Nat) :
    RegistryState × Option RegistryEvent :=
  match lookupAgent st id with
  | none => (st, none)
  | some agent =>
    let agent1 := applyUpdates agent u
    let agent2 := if u.lastActivityAt.getD 0 = 0
      then { agent1 with lastActivityAt := now } else agent1
    let contents := st.heap.getD agent2.outRef []
    let eref := st.heap.length
    let st2 : RegistryState :=
      { setAgent st id agent2 with heap := st.heap ++ [contents] }
    (st2, some { type := "agent-updated", agent := { agent2 with outRef := eref }
                 timestamp := now })

/-- The `string | string[]` argument of `addOutput`. -/
inductive OutputArg where
  | one (s : String)
  | many (ls : List String)
deriving Repr, DecidableEq

/-- `lines.split("\n").filter((l) => l.trim())`. -/
def splitLines (s : String) : List String :=
  (s.splitOn "\n").filter (fun l => jsTrim l ≠ "")

/-- `addOutput`: append to the entry's rolling buffer (trimming to
`MAX_OUTPUT_LINES` from the front), refresh activity, and emit
"agent-output" with a fresh-cell copy. -/
def addOutputOp (st : RegistryState) (id : String) (arg : OutputArg) (now : Nat) :
    RegistryState × Option RegistryEvent :=
  match lookupAgent st id with
  | none => (st, none)
  | some agent =>
    let newLines := match arg with
      | .many ls => ls
      | .one s => splitLines s
    let buf1 := st.heap.getD agent.outRef [] ++ newLines
    let buf2 := if buf1.length > MAX_OUTPUT_LINES
      then buf1.drop (buf1.length - MAX_OUTPUT_LINES) else buf1
    let heap1 := st.heap.set agent.outRef buf2
    let agent1 := { agent with lastActivityAt := now }
    let eref := heap1.length
    let st2 : RegistryState :=
      { setAgent st id agent1 with heap := heap1 ++ [buf2] }
    (st2, some { type := "agent-output", agent := { agent1 with outRef := eref }
                 timestamp := now })

/-- `complete`: set terminal phase/success/completion time, push a
fresh-cell snapshot into the bounded completed history, and emit the
terminal event with another fresh-cell copy.  (The deferred TTL removal
is `removeOp`.) -/
def completeOp (st : RegistryState) (id : String) (success : Bool)
    (costUsd : Option ℚ) (now : Nat) : RegistryState × Option RegistryEvent :=
  match lookupAgent st id with
  | none => (st, none)
  | some agent =>
    let agent1 : AgentEntry :=
      { agent with
        phase := if success then "completed" else "failed"
        success := some success
        completedAt := some now
        lastActivityAt := now
        costUsd := match costUsd with | some c => some c | none => agent.costUsd }
    let buf := st.heap.getD agent1.outRef []
    let eref := st.heap.length
    let heap1 := st.heap ++ [buf]
    let href := heap1.length
    let heap2 := heap1 ++ [buf]
    let hist1 := st.completedHistory ++ [{ agent1 with outRef := href }]
    let hist2 := if hist1.length > MAX_COMPLETED_HISTORY
      then hist1.drop (hist1.length - MAX_COMPLETED_HISTORY) else hist1
    let st2 : RegistryState :=
      { setAgent st id agent1 with heap := heap2, completedHistory := hist2 }
    (st2, some { type := if success then "agent-completed" else "agent-failed"
                 agent := { agent1 with outRef := eref }, timestamp := now })

/-- The deferred removal scheduled by `complete` (after the grace
period): delete the live entry and emit "agent-removed" with a SHALLOW
copy. -/
def removeOp (st : RegistryState) (id : String) (now : Nat) :
    RegistryState × Option RegistryEvent :=
  match lookupAgent st id with
  | none => (st, none)
  | some agent =>
    ({ st with agents := st.agents.filter (fun p => p.1 != id) },
     some { type := "agent-removed", agent := agent, timestamp := now })

/-- A registry mutation, for quantifying over "any subsequent
mutation". -/
inductive RegistryOp where
  | register (role : String) (chatId : Int) (description phase : String)
      (parentId : Option String) (now : Nat)
  | update (id : String) (u : UpdateFields) (now : Nat)
  | addOutput (id : String) (arg : OutputArg) (now : Nat)
  | complete (id : String) (success : Bool) (costUsd : Option ℚ) (now : Nat)
  | remove (id : String) (now : Nat)

/-- Apply one mutation, discarding its event. -/
def applyOp (st : RegistryState) : RegistryOp → RegistryState
  | .register role chatId description phase parentId now =>
    (registerOp st role chatId description phase parentId now).1
  | .update id u now => (updateOp st id u now).1
  | .addOutput id arg now => (addOutputOp st id arg now).1
  | .complete id success costUsd now => (completeOp st id success costUsd now).1
  | .remove id now => (removeOp st id now).1

/-- Apply a sequence of mutations. -/
def applyOps (st : RegistryState) (ops : List RegistryOp) : RegistryState :=
  ops.foldl applyOp st

/-- What an observer holding event `ev` sees as the entry's
`recentOutput` when the heap is in state `st`. -/
def observedOutput (st : RegistryState) (ev : RegistryEvent) : List String :=
  st.heap.getD ev.agent.outRef []

/-- All live entries' buffer references are valid heap cells. -/
abbrev WFReg (st : RegistryState) : Prop :=
  ∀ p ∈ st.agents, p.2.outRef < st.heap.length

/-! ### A concrete registry scenario -/

/-- Registry after registering one worker at time 0. -/
def regSt1 : RegistryState :=
  (registerOp {} "worker" 1 "demo worker" "executing" none 0).1

/-- The id allocated by that registration. -/
def regId : String :=
  (registerOp {} "worker" 1 "demo worker" "executing" none 0).2.1

/-- The "agent-registered" event delivered to observers. -/
def regEv : RegistryEvent :=
  (registerOp {} "worker" 1 "demo worker" "executing" none 0).2.2

/-- The same registry after a subsequent `addOutput` to that entry. -/
def regSt2 : RegistryState :=
  (addOutputOp regSt1 regId (.many ["hello"]) 5).1

/-- The entry stored by that registration. -/
def wEntry : AgentEntry :=
  { id := "worker-1-0", role := "worker", chatId := 1
    description := "demo worker", phase := "executing"
    startedAt := 0, lastActivityAt := 0, outRef := 0 }

/-- The "agent-output" event emitted by the `addOutput` above. -/
def regEvOut : RegistryEvent :=
  match (addOutputOp regSt1 regId (.many ["hello"]) 5).2 with
  | some ev => ev
  | none =>
    { type := "", timestamp := 0
      agent := { id := "", role := "", chatId := 0, description := ""
                 phase := "", startedAt := 0, lastActivityAt := 0, outRef := 0 } }

/-- The live entry inside `regSt2` (activity refreshed to 5 by the
`addOutput`). -/
def wEntry2 : AgentEntry :=
  { id := "worker-1-0", role := "worker", chatId := 1
    description := "demo worker", phase := "executing"
    startedAt := 0, lastActivityAt := 5, outRef := 0 }

/-- The registry after the deferred removal of that entry fires. -/
def regSt3 : RegistryState := (removeOp regSt2 regId 7).1

/-- The "agent-removed" event delivered by that removal. -/
def regEvRem : RegistryEvent :=
  match (removeOp regSt2 regId 7).2 with
  | some ev => ev
  | none =>
    { type := "", timestamp := 0
      agent := { id := "", role := "", chatId := 0, description := ""
                 phase := "", startedAt := 0, lastActivityAt := 0, outRef := 0 } }

/-- A sample field update. -/
def u0 : UpdateFields := { phase := some "summarizing", progress := some "1/2 tasks" }

/-- Cell `r` is a valid heap index that no live entry references — the
situation of a freshly allocated event-copy cell.  Every registry
mutation preserves this, and `getD r` is stable under mutations. -/
def EvFresh (st : RegistryState) (r : Nat) : Prop :=
  r < st.heap.length ∧ ∀ p ∈ st.agents, p.2.outRef ≠ r ∧ p.2.outRef < st.heap.length

/-! ## Helper lemmas about the wave loop -/

lemma length_filter_mono {α : Type} (l : List α) (p q : α → Bool)
    (h : ∀ x ∈ l, p x = true → q x = true) :
    (l.filter p).length ≤ (l.filter q).length := by
  induction l with
  | nil => simp
  | cons a l ih =>
    have ih' := ih (fun x hx hpx => h x (List.mem_cons_of_mem a hx) hpx)
    cases hp : p a with
    | false =>
      cases hq : q a with
      | false => simpa [List.filter_cons, hp, hq] using ih'
      | true =>
        simp only [List.filter_cons, hp, hq, if_false, if_true, List.length_cons]
        exact Nat.le_succ_of_le ih'
    | true =>
      have hq := h a (List.mem_cons_self a l) hp
      simp only [List.filter_cons, hp, hq, if_true, List.length_cons]
      exact Nat.succ_le_succ ih'

lemma length_filter_and_not {α : Type} (l : List α) (q b : α → Bool) :
    (l.filter fun x => q x && b x).length + (l.filter fun x => q x && !b x).length
      = (l.filter q).length := by
  induction l with
  | nil => simp
  | cons a l ih =>
    cases hq : q a <;> cases hb : b a <;>
      simp [List.filter_cons, hq, hb] <;> omega

lemma mem_idsOf {x : String} {ts : List WorkerTask} :
    x ∈ idsOf ts ↔ ∃ w ∈ ts, w.id = x := by
  simp [idsOf, List.mem_toFinset, List.mem_map]

lemma runParallelAux_length_le (workers : List WorkerTask)
    (f : WorkerTask → WorkerResult) (abort : Nat → Bool)
    (k : Nat) (remaining completed : Finset String) :
    (runParallelAux workers f abort k remaining completed).length ≤
      (workers.filter (fun w => decide (w.id ∈ remaining))).length := by
  induction k, remaining, completed using runParallelAux.induct workers f abort with
  | case1 k completed =>
    rw [runParallelAux, dif_pos rfl]
    simp
  | case2 k remaining completed hrem habort =>
    rw [runParallelAux, dif_neg hrem, if_pos habort]
    simp
  | case3 k remaining completed hrem habort hready =>
    rw [runParallelAux, dif_neg hrem, if_neg habort, dif_pos hready]
    simp
  | case4 k remaining completed hrem habort hready ih =>
    rw [runParallelAux, dif_neg hrem, if_neg habort, dif_neg hready]
    rw [List.length_append, List.length_map]
    have hmono :
        (workers.filter (fun w =>
            decide (w.id ∈ remaining \ idsOf (readyTasks workers remaining completed)))).length ≤
          (workers.filter (fun w =>
            decide (w.id ∈ remaining) &&
              !(w.dependsOn.all (fun d => decide (d ∈ completed))))).length := by
      apply length_filter_mono
      intro w hw hmem
      simp only [decide_eq_true_eq, Finset.mem_sdiff] at hmem
      obtain ⟨hin, hnot⟩ := hmem
      simp only [Bool.and_eq_true, decide_eq_true_eq, Bool.not_eq_true']
      refine ⟨hin, ?_⟩
      cases hall : w.dependsOn.all (fun d => decide (d ∈ completed)) with
      | false => rfl
      | true =>
        exfalso
        apply hnot
        rw [mem_idsOf]
        refine ⟨w, ?_, rfl⟩
        simp only [readyTasks, List.mem_filter, Bool.and_eq_true, decide_eq_true_eq]
        exact ⟨hw, hin, by simpa using hall⟩
    calc (readyTasks workers remaining completed).length +
          (runParallelAux workers f abort (k + 1)
            (remaining \ idsOf (readyTasks workers remaining completed))
            (completed ∪ idsOf (readyTasks workers remaining completed))).length
        ≤ (readyTasks workers remaining completed).length +
          (workers.filter (fun w =>
            decide (w.id ∈ remaining \ idsOf (readyTasks workers remaining completed)))).length :=
          Nat.add_le_add_left ih _
      _ ≤ (readyTasks workers remaining completed).length +
          (workers.filter (fun w =>
            decide (w.id ∈ remaining) &&
              !(w.dependsOn.all (fun d => decide (d ∈ completed))))).length :=
          Nat.add_le_add_left hmono _
      _ = (workers.filter (fun w => decide (w.id ∈ remaining))).length := by
          rw [show readyTasks workers remaining completed =
              workers.filter (fun w =>
                decide (w.id ∈ remaining) &&
                  w.dependsOn.all (fun d => decide (d ∈ completed))) from rfl]
          exact length_filter_and_not workers
            (fun w => decide (w.id ∈ remaining))
            (fun w => w.dependsOn.all (fun d => decide (d ∈ completed)))

lemma runSequentialAux_length_le (f : WorkerTask → WorkerResult) (abort : Nat → Bool) :
    ∀ (ws : List WorkerTask) (idx : Nat),
      (runSequentialAux f abort ws idx).length ≤ ws.length := by
  intro ws
  induction ws with
  | nil => intro idx; simp [runSequentialAux]
  | cons t rest ih =>
    intro idx
    rw [runSequentialAux]
    cases abort idx with
    | true => simp
    | false =>
      simp only [if_false, Bool.false_eq_true, List.length_cons]
      exact Nat.succ_le_succ (ih (idx + 1))

lemma runParallelAux_all_deps_absent (workers : List WorkerTask)
    (f : WorkerTask → WorkerResult) (abort : Nat → Bool)
    (habort : ∀ k, abort k = false)
    (hdeps : ∀ w ∈ workers, w.dependsOn ≠ [] →
      ∀ d ∈ w.dependsOn, d ∉ workers.map (fun v => v.id)) :
    runParallelAux workers f abort 0 (workers.map (fun v => v.id)).toFinset ∅ =
      (workers.filter (fun w => w.dependsOn.isEmpty)).map f := by
  by_cases hw : workers = []
  · subst hw
    rw [runParallelAux, dif_pos (by simp)]
    simp
  · have hR0 : ((workers.map (fun v => v.id)).toFinset : Finset String) ≠ ∅ := by
      obtain ⟨w, hw0⟩ := List.exists_mem_of_ne_nil workers hw
      intro hemp
      have hmem : w.id ∈ (workers.map (fun v => v.id)).toFinset := by
        rw [List.mem_toFinset, List.mem_map]
        exact ⟨w, hw0, rfl⟩
      rw [hemp] at hmem
      exact absurd hmem (Finset.not_mem_empty _)
    have hready0 : readyTasks workers (workers.map (fun v => v.id)).toFinset ∅ =
        workers.filter (fun w => w.dependsOn.isEmpty) := by
      apply List.filter_congr
      intro w hwmem
      have hid : decide (w.id ∈ (workers.map (fun v => v.id)).toFinset) = true := by
        simp only [decide_eq_true_eq, List.mem_toFinset, List.mem_map]
        exact ⟨w, hwmem, rfl⟩
      rw [hid, Bool.true_and]
      cases hdep : w.dependsOn with
      | nil => simp
      | cons d ds => simp
    rw [runParallelAux, dif_neg hR0, if_neg (by simp [habort 0]), hready0]
    by_cases hr : workers.filter (fun w => w.dependsOn.isEmpty) = []
    · rw [dif_pos hr, hr]
      simp
    · rw [dif_neg hr]
      have hstep2 : runParallelAux workers f abort 1
          ((workers.map (fun v => v.id)).toFinset \
            idsOf (workers.filter (fun w => w.dependsOn.isEmpty)))
          (∅ ∪ idsOf (workers.filter (fun w => w.dependsOn.isEmpty))) = [] := by
        by_cases h2 : ((workers.map (fun v => v.id)).toFinset \
            idsOf (workers.filter (fun w => w.dependsOn.isEmpty)) : Finset String) = ∅
        · rw [runParallelAux, dif_pos h2]
        · rw [runParallelAux, dif_neg h2, if_neg (by simp [habort 1]), dif_pos ?ready2]
          case ready2 =>
            rw [readyTasks, List.filter_eq_nil_iff]
            intro w hwmem hcond
            simp only [Bool.and_eq_true, decide_eq_true_eq, List.all_eq_true] at hcond
            obtain ⟨hin, hall⟩ := hcond
            rw [Finset.mem_sdiff] at hin
            obtain ⟨hinR0, hnotids⟩ := hin
            cases hdep : w.dependsOn with
            | nil =>
              apply hnotids
              rw [mem_idsOf]
              refine ⟨w, ?_, rfl⟩
              rw [List.mem_filter]
              exact ⟨hwmem, by simp [hdep]⟩
            | cons d ds =>
              have hd := hall d (by rw [hdep]; exact List.mem_cons_self d ds)
              have hd' : d ∈ idsOf (workers.filter (fun w => w.dependsOn.isEmpty)) := by
                simpa using hd
              rw [mem_idsOf] at hd'
              obtain ⟨v, hvmem, hvid⟩ := hd'
              have hvw : v ∈ workers := List.mem_of_mem_filter hvmem
              apply hdeps w hwmem (by rw [hdep]; exact List.cons_ne_nil d ds) d
                (by rw [hdep]; exact List.mem_cons_self d ds)
              rw [List.mem_map]
              exact ⟨v, hvw, hvid⟩
      rw [hstep2, List.append_nil]

/-! ## Claim theorems -/

/-- **C1**: in the dependency-respecting parallel mode, the wave loop
terminates even when unit tasks declare dependency ids absent from the
plan; when no unit is ready while units remain (dependency deadlock) the
loop stops via `break`, without raising an error or retrying, and the
run returns results for exactly the units that were executed — under the
claim's hypothesis (every task either has no dependencies, or has a
non-empty dependency list all of whose ids are absent from the plan, and
the external signal never aborts) those are precisely the
dependency-free units, each run once. Termination for arbitrary plans is
established by the well-founded definition of `runParallelAux` itself. -/
theorem parallel_deadlock_stops_and_returns_executed
    (plan : OrchestratorPlan) (f : WorkerTask → WorkerResult) (abort : Nat → Bool)
    (habort : ∀ k, abort k = false)
    (hdeps : ∀ w ∈ plan.workers, w.dependsOn ≠ [] →
      ∀ d ∈ w.dependsOn, d ∉ plan.workers.map (fun v => v.id)) :
    runParallel plan f abort =
      (plan.workers.filter (fun w => w.dependsOn.isEmpty)).map f :=
  runParallelAux_all_deps_absent plan.workers f abort habort hdeps

/-- Witness for C1 on `deadlockPlan`: worker "a" depends on the absent
id "missing", worker "b" is dependency-free. -/
theorem parallel_deadlock_stops_and_returns_executed_witness :
    runParallel deadlockPlan sampleRun (fun _ => false) =
      (deadlockPlan.workers.filter (fun w => w.dependsOn.isEmpty)).map sampleRun :=
  parallel_deadlock_stops_and_returns_executed deadlockPlan sampleRun (fun _ => false)
    (fun _ => rfl) (by decide)

/-- **C2**: when a parsed plan requests more than the configured maximum
of `MAX_WORKERS = 10` unit tasks, the supervisor truncates it to the
first 10 tasks in plan order (`slice(0, MAX_WORKERS)`), and the number
of units executed in either mode never exceeds 10. -/
theorem max_workers_cap_truncates (plan : OrchestratorPlan)
    (f : WorkerTask → WorkerResult) (abort : Nat → Bool)
    (h : plan.workers.length > MAX_WORKERS) :
    (capWorkers plan).workers = plan.workers.take MAX_WORKERS ∧
    (runSequential (capWorkers plan) f abort).length ≤ MAX_WORKERS ∧
    (runParallel (capWorkers plan) f abort).length ≤ MAX_WORKERS := by
  have hcap : capWorkers plan = { plan with workers := plan.workers.take MAX_WORKERS } := by
    rw [capWorkers, if_pos h]
  have htake : (plan.workers.take MAX_WORKERS).length ≤ MAX_WORKERS := by
    rw [List.length_take]
    exact Nat.min_le_left _ _
  refine ⟨by rw [hcap], ?_, ?_⟩
  · rw [hcap, runSequential]
    exact Nat.le_trans (runSequentialAux_length_le f abort _ 0) htake
  · rw [hcap, runParallel]
    refine Nat.le_trans (runParallelAux_length_le _ f abort 0 _ _) ?_
    exact Nat.le_trans (List.length_filter_le _ _) htake

/-- Witness for C2 on the 11-worker `bigPlan`. -/
theorem max_workers_cap_truncates_witness :
    (capWorkers bigPlan).workers = bigPlan.workers.take MAX_WORKERS ∧
    (runSequential (capWorkers bigPlan) sampleRun (fun _ => false)).length ≤ MAX_WORKERS ∧
    (runParallel (capWorkers bigPlan) sampleRun (fun _ => false)).length ≤ MAX_WORKERS :=
  max_workers_cap_truncates bigPlan sampleRun (fun _ => false) (by decide)

/-- **C8** (counterexample): the claim states that any plan in which
unit-task ids are not unique is rejected by `validatePlan`; in fact
`validatePlan` accepts `dupIdPlan`, whose two workers share the id "a"
— the validator never checks uniqueness. -/
theorem validatePlan_accepts_duplicate_ids :
    validatePlan dupIdPlan = .ok dupIdPlan ∧
      ¬ (dupIdPlan.workers.map (fun w => w.id)).Nodup := by
  constructor
  · rfl
  · decide

/-- **C8** (amended): every plan accepted by `validatePlan` is returned
unchanged, carries the type tag "plan", and has a non-empty id and a
non-empty prompt in every unit task; any plan with a wrong type tag or
with some unit task whose id or prompt is empty is rejected.  Uniqueness
of ids is NOT checked by the validator. -/
theorem validatePlan_nonempty_id_prompt (plan : OrchestratorPlan) :
    (∀ plan2, validatePlan plan = .ok plan2 →
      plan2 = plan ∧ plan.type = "plan" ∧
        ∀ w ∈ plan.workers, w.id ≠ "" ∧ w.prompt ≠ "") ∧
    ((plan.type ≠ "plan" ∨ ∃ w ∈ plan.workers, w.id = "" ∨ w.prompt = "") →
      ∀ plan2, validatePlan plan ≠ .ok plan2) := by
  constructor
  · intro plan2 hok
    rw [validatePlan] at hok
    by_cases hty : plan.type = "plan"
    · rw [if_neg (by simp [hty])] at hok
      cases hfind : plan.workers.find? (fun w => w.id == "" || w.prompt == "") with
      | some w => rw [hfind] at hok; exact absurd hok (by simp)
      | none =>
        rw [hfind] at hok
        have hplan2 : plan2 = plan := by
          cases hok
          rfl
        refine ⟨hplan2, hty, ?_⟩
        intro w hw
        have hnot := List.find?_eq_none.mp hfind w hw
        simp only [Bool.or_eq_true, beq_iff_eq, not_or] at hnot
        exact hnot
    · rw [if_pos hty] at hok
      exact absurd hok (by simp)
  · intro hbad plan2 hok
    rw [validatePlan] at hok
    rcases hbad with hty | ⟨w, hw, hfield⟩
    · rw [if_pos hty] at hok
      exact absurd hok (by simp)
    · by_cases hty : plan.type = "plan"
      · rw [if_neg (by simp [hty])] at hok
        cases hfind : plan.workers.find? (fun w => w.id == "" || w.prompt == "") with
        | some v => rw [hfind] at hok; exact absurd hok (by simp)
        | none =>
          have hnot := List.find?_eq_none.mp hfind w hw
          simp only [Bool.or_eq_true, beq_iff_eq, not_or] at hnot
          rcases hfield with h | h
          · exact hnot.1 h
          · exact hnot.2 h
      · rw [if_pos hty] at hok
        exact absurd hok (by simp)

/-- Witness for the amended C8: `deadlockPlan` passes validation with
non-empty ids/prompts, while `emptyPromptPlan` is rejected. -/
theorem validatePlan_nonempty_id_prompt_witness :
    (deadlockPlan = deadlockPlan ∧ deadlockPlan.type = "plan" ∧
      ∀ w ∈ deadlockPlan.workers, w.id ≠ "" ∧ w.prompt ≠ "") ∧
    (∀ plan2, validatePlan emptyPromptPlan ≠ .ok plan2) :=
  ⟨(validatePlan_nonempty_id_prompt deadlockPlan).1 deadlockPlan (by rfl),
   (validatePlan_nonempty_id_prompt emptyPromptPlan).2 (Or.inr ⟨emptyPromptPlan.workers[0],
     by decide, Or.inr (by decide)⟩)⟩

/-- **C3** (counterexample): the claim asserts that at the Work
Supervisor layer BOTH strategies retry a transient failure exactly once.
In the plan-then-delegate strategy the unit runner (`WorkerAgent.execute`,
which the orchestrator calls with no retry wrapper) performs exactly one
invocation and returns a structured failure even when the failure
message ("Request timed out") matches the transient patterns. -/
theorem worker_transient_error_not_retried :
    isTransientError "Request timed out" = true ∧
    (workerExecute wTask (.error "Request timed out") 7).2 = 1 ∧
    (workerExecute wTask (.error "Request timed out") 7).1.success = false ∧
    (workerExecute wTask (.error "Request timed out") 7).1.result =
      "Worker error: Request timed out" :=
  ⟨by decide, rfl, rfl, rfl⟩

/-- **C3** (amended): the transient-error retry lives only in the
direct-execution strategy (`Executor.invokeWithRetry`): a failure whose
message matches a transient pattern is retried exactly once (two
invocations) and the retry's outcome is surfaced; a non-matching failure
propagates immediately after one invocation.  In the plan-then-delegate
strategy the worker path performs exactly one invocation and never
retries (errors are converted to failure results, not re-thrown). -/
theorem transient_retry_executor_only (msg : String)
    (second : Except String ClaudeResult) (d : Nat) :
    (isTransientError msg = true →
      invokeWithRetry (.error msg) second d =
        (match second with
         | .ok r => (.ok (execResultOf r d), 2)
         | .error m2 => (.error m2, 2))) ∧
    (isTransientError msg = false →
      invokeWithRetry (.error msg) second d = (.error msg, 1)) ∧
    (∀ (task : WorkerTask) (call : Except String ClaudeResult),
      (workerExecute task call d).2 = 1) := by
  refine ⟨?_, ?_, ?_⟩
  · intro htr
    simp only [invokeWithRetry, htr, if_true]
  · intro htr
    simp only [invokeWithRetry, htr, Bool.false_eq_true, if_false]
  · intro task call
    cases call <;> rfl

/-- Witness for the amended C3: a transient failure ("Request timed
out") is retried and the second outcome surfaced; a non-transient
failure ("segfault") propagates after one call; the worker path always
performs exactly one call. -/
theorem transient_retry_executor_only_witness :
    invokeWithRetry (.error "Request timed out") (.error "still timed out") 7 =
      (.error "still timed out", 2) ∧
    invokeWithRetry (.error "segfault") (.error "unused") 7 = (.error "segfault", 1) ∧
    (workerExecute wTask (.error "ECONNRESET") 7).2 = 1 :=
  ⟨(transient_retry_executor_only "Request timed out" (.error "still timed out") 7).1
      (by decide),
   (transient_retry_executor_only "segfault" (.error "unused") 7).2.1 (by decide),
   (transient_retry_executor_only "x" (.error "x") 7).2.2 wTask (.error "ECONNRESET")⟩

/-- **C6** (counterexample): the claim asserts that in BOTH strategies
stall detection forcibly cancels the unit at the kill threshold.  The
plan-then-delegate strategy's per-worker stall check has no kill branch:
at (and beyond) `STALL_KILL_MS` of silence it still only warns, while
the direct-execution strategy's check does abort. -/
theorem orchestrator_stall_never_kills :
    (orchestratorStallTick STALL_KILL_MS false).killed = false ∧
    (orchestratorStallTick (10 * STALL_KILL_MS) true).killed = false ∧
    (executorStallTick STALL_KILL_MS false).killed = true :=
  ⟨rfl, rfl, by decide⟩

/-- **C6** (amended): stall detection compares time-since-last-activity
against the warning threshold in both strategies (a one-time warning,
re-armed when activity resumes via `onActivity`), but only the
direct-execution strategy enforces the longer kill threshold by
forcibly cancelling the unit; the plan-then-delegate strategy's stall
check never cancels. -/
theorem stall_thresholds (silentFor : Nat) (warned : Bool) :
    ((executorStallTick silentFor warned).warningEmitted = true ↔
      STALL_WARNING_MS ≤ silentFor ∧ warned = false) ∧
    ((executorStallTick silentFor warned).killed = true ↔ STALL_KILL_MS ≤ silentFor) ∧
    ((orchestratorStallTick silentFor warned).warningEmitted = true ↔
      STALL_WARNING_MS ≤ silentFor ∧ warned = false) ∧
    (orchestratorStallTick silentFor warned).killed = false ∧
    ((executorStallTick silentFor warned).stallWarned = true ↔
      warned = true ∨ STALL_WARNING_MS ≤ silentFor) ∧
    (onActivity warned).stallWarned = false ∧
    ((onActivity warned).resumedEmitted = true ↔ warned = true) := by
  cases warned <;>
    simp [executorStallTick, orchestratorStallTick, onActivity]

lemma containsSub_front (mid post : List Char) :
    containsSub (mid ++ post) mid = true := by
  rw [containsSub.eq_def]
  have hp : mid.isPrefixOf (mid ++ post) = true :=
    List.isPrefixOf_iff_prefix.mpr (List.prefix_append mid post)
  rw [hp]
  simp

lemma containsSub_append_left (a rest pat : List Char)
    (h : containsSub rest pat = true) :
    containsSub (a ++ rest) pat = true := by
  induction a with
  | nil => simpa using h
  | cons c a ih =>
    rw [List.cons_append, containsSub.eq_def]
    by_cases hp : pat.isPrefixOf (c :: (a ++ rest)) = true
    · rw [hp]; simp
    · rw [Bool.eq_false_iff.mpr hp]
      simpa using ih

lemma strIncludes_front (mid post : String) :
    strIncludes (mid ++ post) mid = true := by
  have h : (mid ++ post).toList = mid.toList ++ post.toList := by simp
  rw [strIncludes, h]
  exact containsSub_front _ _

lemma strIncludes_append_left (a rest pat : String)
    (h : strIncludes rest pat = true) :
    strIncludes (a ++ rest) pat = true := by
  have heq : (a ++ rest).toList = a.toList ++ rest.toList := by simp
  rw [strIncludes, heq]
  exact containsSub_append_left _ _ _ h

/-- **C4**: for every parsed single result object whose subtype marks
the max-turns terminal state ("errormaxturns"), the extractor returns a
result with `isError = false` whose text mentions the turn count (when
the turn-count fields hold a truthy value) and the accumulated cost
(when the cost chain holds a truthy value), instead of treating the
invocation as a failure. -/
theorem maxturns_is_not_error (o : JObj) (h : o.subtype = some "errormaxturns") :
    (extractResult (.obj o)).isError = false ∧
    (∀ n : Int, shownTurns o = some n →
      strIncludes (extractResult (.obj o)).result (toString n) = true) ∧
    (∀ c : ℚ, costRaw o = some c → c ≠ 0 →
      strIncludes (extractResult (.obj o)).result
        (" (cost: $" ++ (toFixed2 c ++ ")")) = true) := by
  have hcond : (o.subtype == some "errormaxturns") = true := by
    rw [h]; rfl
  have hx : extractResult (.obj o) = extractObj o := rfl
  rw [hx, extractObj, if_pos hcond]
  refine ⟨rfl, ?_, ?_⟩
  · intro n hn
    simp only [hn]
    exact strIncludes_append_left _ _ _ (strIncludes_front _ _)
  · intro c hc hc0
    simp only [hc, if_neg hc0]
    apply strIncludes_append_left
    apply strIncludes_append_left
    apply strIncludes_append_left
    exact strIncludes_front _ _

/-- Witness for C4 on `maxTurnsObj` (50 turns, $1.25 cost). -/
theorem maxturns_is_not_error_witness :
    (extractResult (.obj maxTurnsObj)).isError = false ∧
    strIncludes (extractResult (.obj maxTurnsObj)).result (toString (50 : Int)) = true ∧
    strIncludes (extractResult (.obj maxTurnsObj)).result
      (" (cost: $" ++ (toFixed2 (2 : ℚ) ++ ")")) = true :=
  ⟨(maxturns_is_not_error maxTurnsObj rfl).1,
   (maxturns_is_not_error maxTurnsObj rfl).2.1 50 rfl,
   (maxturns_is_not_error maxTurnsObj rfl).2.2 2 rfl (by decide)⟩

/-- **C5** (counterexample): the claim asserts that for every
invocation with NON-EMPTY stdout from which every JSON-extraction
strategy fails, the invoker resolves successfully with the trimmed raw
output.  For the non-empty whitespace-only stdout " " every strategy
fails and the close handler REJECTS, because the fallback requires the
TRIMMED stdout to be non-empty. -/
theorem whitespace_stdout_rejected :
    (" " : String) ≠ "" ∧
    parseClaudeOutput (fun _ => none) " " = .error "No JSON found in Claude output" ∧
    handleClose (fun _ => none) " " "" 0 false none =
      .error "No JSON found in Claude output" := by
  refine ⟨by decide, rfl, rfl⟩

/-- **C5** (amended): for every invocation whose stdout has non-empty
TRIMMED content and on which every JSON-extraction strategy fails, the
close handler (not cancelled) resolves successfully with the trimmed
raw output as the result text and `isError = false`, instead of
rejecting with the parse error. -/
theorem raw_output_fallback (jp : String → Option JData) (stdout stderr : String)
    (code : Int) (sessionId : Option String)
    (hfail : ∃ e, parseClaudeOutput jp stdout = .error e)
    (htrim : jsTrim stdout ≠ "") :
    handleClose jp stdout stderr code false sessionId =
      .ok { result := jsTrim stdout, sessionId := sessionId.getD "", isError := false } := by
  obtain ⟨e, he⟩ := hfail
  have hne : stdout ≠ "" := by
    intro h0
    apply htrim
    rw [h0]
    rfl
  rw [handleClose, if_neg (by simp), if_neg (fun hx => hne hx.2), he]
  exact if_pos htrim

/-- Witness for the amended C5 on `plainStdout`. -/
theorem raw_output_fallback_witness :
    handleClose (fun _ => none) plainStdout "" 0 false (some "s0") =
      .ok { result := jsTrim plainStdout, sessionId := (some "s0").getD ""
            isError := false } :=
  raw_output_fallback (fun _ => none) plainStdout "" 0 (some "s0")
    ⟨"No JSON found in Claude output", rfl⟩ (by decide)

/-- **C9** (counterexample): the claim asserts the user-visible chat
response always equals the portion of the text outside an accepted
action block.  For `blockOnlyText` the portion outside the block is the
single space " ", yet classification returns the fixed placeholder
"Working on it..." (the code substitutes it whenever the trimmed
outside portion is empty). -/
theorem chat_placeholder_on_empty_outside :
    (parseChatResponse chatJson blockOnlyText).action = some wr0 ∧
    (parseChatResponse chatJson blockOnlyText).chatText = "Working on it..." ∧
    "Working on it..." ≠ " " := by
  refine ⟨rfl, rfl, by decide⟩

/-- **C9** (amended): when the chat-agent text contains a well-formed
action block accepted as a work request, classification returns the
work request together with the WHITESPACE-TRIMMED portion of the text
outside the block, provided that trimmed portion is non-empty; when the
text outside the block is empty or whitespace-only, the fixed
placeholder "Working on it..." is returned instead. -/
theorem chat_outside_text_returned (jp : String → Option WorkRequest)
    (text : String) (i k : Nat) (wr : WorkRequest)
    (hopen : findSubstrIdx text.toList ACTION_OPEN.toList = some i)
    (hclose : findSubstrIdx (text.toList.drop (i + ACTION_OPEN.toList.length))
      ACTION_CLOSE.toList = some k)
    (hjp : jp (jsTrim (String.mk
      ((text.toList.drop (i + ACTION_OPEN.toList.length)).take k))) = some wr)
    (hty : wr.type = "work_request") (htask : wr.task ≠ "")
    (houtside : jsTrim (String.mk (text.toList.take i ++
      (text.toList.drop (i + ACTION_OPEN.toList.length)).drop
        (k + ACTION_CLOSE.toList.length))) ≠ "") :
    parseChatResponse jp text =
      { chatText := jsTrim (String.mk (text.toList.take i ++
          (text.toList.drop (i + ACTION_OPEN.toList.length)).drop
            (k + ACTION_CLOSE.toList.length)))
        action := some wr } := by
  have hcond : ¬(wr.type ≠ "work_request" ∨ wr.task = "") := by
    intro h
    rcases h with ha | hb
    · exact ha hty
    · exact htask hb
  simp only [parseChatResponse, hopen, hclose, hjp]
  rw [if_neg hcond, if_neg houtside]

/-- Witness for the amended C9 on `chatText2` ("On it! " before the
block, "Done." after). -/
theorem chat_outside_text_returned_witness :
    parseChatResponse chatJson chatText2 =
      { chatText := "On it! Done.", action := some wr0 } := by
  have h := chat_outside_text_returned chatJson chatText2
    "On it! ".toList.length actionPayload.toList.length wr0
    rfl rfl rfl rfl (by decide) (by decide)
  exact h.trans (by rfl)

lemma getD_append_lt (l l2 : List (List String)) (r : Nat) (h : r < l.length) :
    (l ++ l2).getD r [] = l.getD r [] := by
  simp [List.getD, List.getElem?_append, h]

lemma getD_set_ne (l : List (List String)) (i : Nat) (v : List String) (r : Nat)
    (h : i ≠ r) : (l.set i v).getD r [] = l.getD r [] := by
  simp [List.getD, List.getElem?_set_ne h]

lemma lookupAgent_mem {st : RegistryState} {id : String} {e : AgentEntry}
    (h : lookupAgent st id = some e) : ∃ key, (key, e) ∈ st.agents := by
  rw [lookupAgent] at h
  cases hf : st.agents.find? (fun p => p.1 == id) with
  | none => rw [hf] at h; exact absurd h (by simp)
  | some p =>
    rw [hf] at h
    have h2 : p.2 = e := Option.some.inj h
    subst h2
    refine ⟨p.1, ?_⟩
    rw [Prod.mk.eta]
    exact List.mem_of_find?_eq_some hf

lemma outRef_ite (c : Prop) [Decidable c] (a : AgentEntry) (n : Nat) :
    (if c then { a with lastActivityAt := n } else a).outRef = a.outRef := by
  split <;> rfl

lemma mapped_agents_P (agents : List (String × AgentEntry)) (id : String)
    (e2 : AgentEntry) (P : Nat → Prop)
    (hall : ∀ p ∈ agents, P p.2.outRef) (he2 : P e2.outRef) :
    ∀ q ∈ agents.map (fun p => if p.1 == id then (p.1, e2) else p), P q.2.outRef := by
  intro q hq
  rcases List.mem_map.mp hq with ⟨p, hp, rfl⟩
  by_cases hc : (p.1 == id) = true
  · rw [if_pos hc]
    exact he2
  · rw [if_neg hc]
    exact hall p hp

lemma appended_agents_P (agents : List (String × AgentEntry))
    (pr : String × AgentEntry) (P : Nat → Prop)
    (hall : ∀ p ∈ agents, P p.2.outRef) (he : P pr.2.outRef) :
    ∀ q ∈ agents ++ [pr], P q.2.outRef := by
  intro q hq
  rcases List.mem_append.mp hq with hq | hq
  · exact hall q hq
  · rcases List.mem_singleton.mp hq with rfl
    exact he

lemma applyOp_stable (st : RegistryState) (r : Nat) (op : RegistryOp)
    (h : EvFresh st r) :
    EvFresh (applyOp st op) r ∧ (applyOp st op).heap.getD r [] = st.heap.getD r [] := by
  obtain ⟨hr, hag⟩ := h
  have hag1 : ∀ p ∈ st.agents, p.2.outRef ≠ r := fun p hp => (hag p hp).1
  have hag2 : ∀ p ∈ st.agents, p.2.outRef < st.heap.length := fun p hp => (hag p hp).2
  cases op with
  | register role chatId description phase parentId now =>
    simp only [applyOp, registerOp]
    refine ⟨⟨?_, ?_⟩, getD_append_lt _ _ _ hr⟩
    · simp only [List.length_append, List.length_singleton]
      omega
    · simp only [List.length_append, List.length_singleton]
      refine appended_agents_P _ _ (fun n => n ≠ r ∧ n < st.heap.length + 1) ?_ ?_
      · intro p hp
        exact ⟨hag1 p hp, by have := hag2 p hp; omega⟩
      · exact ⟨Nat.ne_of_gt hr, Nat.lt_succ_self _⟩
  | update id u now =>
    cases hlk : lookupAgent st id with
    | none =>
      simp only [applyOp, updateOp, hlk]
      exact ⟨⟨hr, hag⟩, by trivial⟩
    | some agent =>
      obtain ⟨key, hkey⟩ := lookupAgent_mem hlk
      have ha1 : agent.outRef ≠ r := hag1 (key, agent) hkey
      have ha2 : agent.outRef < st.heap.length := hag2 (key, agent) hkey
      simp only [applyOp, updateOp, hlk, setAgent]
      refine ⟨⟨?_, ?_⟩, getD_append_lt _ _ _ hr⟩
      · simp only [List.length_append, List.length_singleton]
        omega
      · simp only [List.length_append, List.length_singleton]
        refine mapped_agents_P _ _ _ (fun n => n ≠ r ∧ n < st.heap.length + 1) ?_ ?_
        · intro p hp
          exact ⟨hag1 p hp, by have := hag2 p hp; omega⟩
        · constructor
          · rw [outRef_ite]
            exact ha1
          · rw [outRef_ite]
            show agent.outRef < st.heap.length + 1
            omega
  | addOutput id arg now =>
    cases hlk : lookupAgent st id with
    | none =>
      simp only [applyOp, addOutputOp, hlk]
      exact ⟨⟨hr, hag⟩, by trivial⟩
    | some agent =>
      obtain ⟨key, hkey⟩ := lookupAgent_mem hlk
      have ha1 : agent.outRef ≠ r := hag1 (key, agent) hkey
      have ha2 : agent.outRef < st.heap.length := hag2 (key, agent) hkey
      simp only [applyOp, addOutputOp, hlk, setAgent]
      refine ⟨⟨?_, ?_⟩, ?_⟩
      · simp only [List.length_append, List.length_singleton, List.length_set]
        omega
      · simp only [List.length_append, List.length_singleton, List.length_set]
        refine mapped_agents_P _ _ _ (fun n => n ≠ r ∧ n < st.heap.length + 1) ?_ ?_
        · intro p hp
          exact ⟨hag1 p hp, by have := hag2 p hp; omega⟩
        · exact ⟨ha1, by show agent.outRef < st.heap.length + 1; omega⟩
      · rw [getD_append_lt _ _ _ (by rw [List.length_set]; exact hr)]
        exact getD_set_ne _ _ _ _ ha1
  | complete id success costUsd now =>
    cases hlk : lookupAgent st id with
    | none =>
      simp only [applyOp, completeOp, hlk]
      exact ⟨⟨hr, hag⟩, by trivial⟩
    | some agent =>
      obtain ⟨key, hkey⟩ := lookupAgent_mem hlk
      have ha1 : agent.outRef ≠ r := hag1 (key, agent) hkey
      have ha2 : agent.outRef < st.heap.length := hag2 (key, agent) hkey
      simp only [applyOp, completeOp, hlk, setAgent]
      refine ⟨⟨?_, ?_⟩, ?_⟩
      · simp only [List.length_append, List.length_singleton]
        omega
      · simp only [List.length_append, List.length_singleton]
        refine mapped_agents_P _ _ _ (fun n => n ≠ r ∧ n < st.heap.length + 1 + 1) ?_ ?_
        · intro p hp
          exact ⟨hag1 p hp, by have := hag2 p hp; omega⟩
        · refine ⟨?_, ?_⟩
          · show agent.outRef ≠ r
            exact ha1
          · show agent.outRef < st.heap.length + 1 + 1
            omega
      · rw [getD_append_lt _ _ _ (by simp only [List.length_append, List.length_singleton]; omega)]
        exact getD_append_lt _ _ _ hr
  | remove id now =>
    cases hlk : lookupAgent st id with
    | none =>
      simp only [applyOp, removeOp, hlk]
      exact ⟨⟨hr, hag⟩, by trivial⟩
    | some agent =>
      simp only [applyOp, removeOp, hlk]
      refine ⟨⟨hr, ?_⟩, by trivial⟩
      intro p hp
      exact hag p (List.mem_of_mem_filter hp)

lemma applyOps_stable (st : RegistryState) (r : Nat) (ops : List RegistryOp)
    (h : EvFresh st r) :
    (applyOps st ops).heap.getD r [] = st.heap.getD r [] := by
  induction ops generalizing st with
  | nil => rfl
  | cons op ops ih =>
    obtain ⟨h1, h2⟩ := applyOp_stable st r op h
    calc (applyOps st (op :: ops)).heap.getD r []
        = (applyOps (applyOp st op) ops).heap.getD r [] := rfl
      _ = (applyOp st op).heap.getD r [] := ih _ h1
      _ = st.heap.getD r [] := h2

lemma updateOp_event_fresh (st : RegistryState) (id : String) (u : UpdateFields)
    (now : Nat) (agent : AgentEntry) (hwf : WFReg st)
    (hlk : lookupAgent st id = some agent) :
    EvFresh (updateOp st id u now).1 st.heap.length := by
  obtain ⟨key, hkey⟩ := lookupAgent_mem hlk
  simp only [updateOp, hlk, setAgent]
  constructor
  · simp only [List.length_append, List.length_singleton]
    omega
  · simp only [List.length_append, List.length_singleton]
    refine mapped_agents_P _ _ _
      (fun n => n ≠ st.heap.length ∧ n < st.heap.length + 1) ?_ ?_
    · intro p hp
      have := hwf p hp
      exact ⟨by omega, by omega⟩
    · have haout : agent.outRef < st.heap.length := hwf (key, agent) hkey
      constructor
      · rw [outRef_ite]
        show agent.outRef ≠ st.heap.length
        omega
      · rw [outRef_ite]
        show agent.outRef < st.heap.length + 1
        omega

lemma addOutputOp_event_fresh (st : RegistryState) (id : String) (arg : OutputArg)
    (now : Nat) (agent : AgentEntry) (hwf : WFReg st)
    (hlk : lookupAgent st id = some agent) :
    EvFresh (addOutputOp st id arg now).1 st.heap.length := by
  obtain ⟨key, hkey⟩ := lookupAgent_mem hlk
  simp only [addOutputOp, hlk, setAgent]
  constructor
  · simp only [List.length_append, List.length_singleton, List.length_set]
    omega
  · simp only [List.length_append, List.length_singleton, List.length_set]
    refine mapped_agents_P _ _ _
      (fun n => n ≠ st.heap.length ∧ n < st.heap.length + 1) ?_ ?_
    · intro p hp
      have := hwf p hp
      exact ⟨by omega, by omega⟩
    · have haout : agent.outRef < st.heap.length := hwf (key, agent) hkey
      exact ⟨by show agent.outRef ≠ st.heap.length; omega,
             by show agent.outRef < st.heap.length + 1; omega⟩

lemma completeOp_event_fresh (st : RegistryState) (id : String) (success : Bool)
    (costUsd : Option ℚ) (now : Nat) (agent : AgentEntry) (hwf : WFReg st)
    (hlk : lookupAgent st id = some agent) :
    EvFresh (completeOp st id success costUsd now).1 st.heap.length := by
  obtain ⟨key, hkey⟩ := lookupAgent_mem hlk
  simp only [completeOp, hlk, setAgent]
  constructor
  · simp only [List.length_append, List.length_singleton]
    omega
  · simp only [List.length_append, List.length_singleton]
    refine mapped_agents_P _ _ _
      (fun n => n ≠ st.heap.length ∧ n < st.heap.length + 1 + 1) ?_ ?_
    · intro p hp
      have := hwf p hp
      exact ⟨by omega, by omega⟩
    · have haout : agent.outRef < st.heap.length := hwf (key, agent) hkey
      exact ⟨by show agent.outRef ≠ st.heap.length; omega,
             by show agent.outRef < st.heap.length + 1 + 1; omega⟩

/-- **C7** (counterexample): the claim asserts that EVERY registry
mutation's change event carries a copy deep enough that later mutations
cannot alter the entry an observer received.  The "agent-registered"
event is a SHALLOW copy (`{ ...agent }`) sharing the live entry's
`recentOutput` array: after a later `addOutput` to the same entry, the
output buffer reachable from the already-delivered register event has
changed from `[]` to `["hello"]`. -/
theorem register_event_entry_mutates :
    observedOutput regSt1 regEv = ([] : List String) ∧
    observedOutput regSt2 regEv = ["hello"] := by
  exact ⟨rfl, rfl⟩

/-- **C7** (amended): the events emitted by `update`, `addOutput` and
`complete` carry a deep-enough copy (`recentOutput` copied into a fresh
cell), and the deferred-removal event — though a shallow copy — is
emitted only after the entry is deleted from the live map, so that no
live entry still references its buffer (each registration allocates a
fresh buffer, so distinct live entries never share one): in all four
cases no sequence of subsequent registry mutations alters the entry an
observer received.  Only the `register` event violates the claim: its
shallow copy shares the buffer of an entry that is still live, and a
later `addOutput` to that entry is visible through the delivered
register event. -/
theorem update_output_complete_events_deep (st : RegistryState) (id : String)
    (now : Nat) (agent : AgentEntry) (hwf : WFReg st)
    (hlk : lookupAgent st id = some agent) :
    (∀ u st2 ev, updateOp st id u now = (st2, some ev) →
      ∀ ops, observedOutput (applyOps st2 ops) ev = observedOutput st2 ev) ∧
    (∀ arg st2 ev, addOutputOp st id arg now = (st2, some ev) →
      ∀ ops, observedOutput (applyOps st2 ops) ev = observedOutput st2 ev) ∧
    (∀ success costUsd st2 ev, completeOp st id success costUsd now = (st2, some ev) →
      ∀ ops, observedOutput (applyOps st2 ops) ev = observedOutput st2 ev) ∧
    (∀ st2 ev, removeOp st id now = (st2, some ev) →
      (∀ p ∈ st.agents, p.1 ≠ id → p.2.outRef ≠ agent.outRef) →
      ∀ ops, observedOutput (applyOps st2 ops) ev = observedOutput st2 ev) := by
  refine ⟨?_, ?_, ?_, ?_⟩
  · intro u st2 ev heq ops
    have h1 : (updateOp st id u now).1 = st2 := congrArg Prod.fst heq
    have h2 : (updateOp st id u now).2 = some ev := congrArg Prod.snd heq
    simp only [updateOp, hlk] at h2
    have hev : ev.agent.outRef = st.heap.length := by
      rw [← Option.some.inj h2]
    rw [observedOutput, observedOutput, hev, ← h1]
    exact applyOps_stable _ _ _ (updateOp_event_fresh st id u now agent hwf hlk)
  · intro arg st2 ev heq ops
    have h1 : (addOutputOp st id arg now).1 = st2 := congrArg Prod.fst heq
    have h2 : (addOutputOp st id arg now).2 = some ev := congrArg Prod.snd heq
    simp only [addOutputOp, hlk] at h2
    have hev : ev.agent.outRef = st.heap.length := by
      rw [← Option.some.inj h2]
      exact List.length_set st.heap agent.outRef _
    rw [observedOutput, observedOutput, hev, ← h1]
    exact applyOps_stable _ _ _ (addOutputOp_event_fresh st id arg now agent hwf hlk)
  · intro success costUsd st2 ev heq ops
    have h1 : (completeOp st id success costUsd now).1 = st2 := congrArg Prod.fst heq
    have h2 : (completeOp st id success costUsd now).2 = some ev := congrArg Prod.snd heq
    simp only [completeOp, hlk] at h2
    have hev : ev.agent.outRef = st.heap.length := by
      rw [← Option.some.inj h2]
    rw [observedOutput, observedOutput, hev, ← h1]
    exact applyOps_stable _ _ _
      (completeOp_event_fresh st id success costUsd now agent hwf hlk)
  · intro st2 ev heq hshare ops
    obtain ⟨key, hkey⟩ := lookupAgent_mem hlk
    have h1 : (removeOp st id now).1 = st2 := congrArg Prod.fst heq
    have h2 : (removeOp st id now).2 = some ev := congrArg Prod.snd heq
    simp only [removeOp, hlk] at h2
    have hev : ev.agent.outRef = agent.outRef := by
      rw [← Option.some.inj h2]
    rw [observedOutput, observedOutput, hev, ← h1]
    apply applyOps_stable
    simp only [removeOp, hlk]
    constructor
    · exact hwf (key, agent) hkey
    · intro p hp
      rcases List.mem_filter.mp hp with ⟨hpmem, hpne⟩
      exact ⟨hshare p hpmem (bne_iff_ne.mp hpne), hwf p hpmem⟩

/-- Witness for the amended C7: the "agent-output" event from the
concrete scenario stays unchanged under a further `addOutput` to the
same entry, and the "agent-removed" event stays unchanged under a
further registration. -/
theorem update_output_complete_events_deep_witness :
    (observedOutput
      (applyOps regSt2 [RegistryOp.addOutput regId (.many ["world"]) 6]) regEvOut =
     observedOutput regSt2 regEvOut) ∧
    (observedOutput
      (applyOps regSt3 [RegistryOp.register "worker" 2 "next" "executing" none 8]) regEvRem =
     observedOutput regSt3 regEvRem) :=
  ⟨(update_output_complete_events_deep regSt1 regId 5 wEntry (by decide) rfl).2.1
     (.many ["hello"]) regSt2 regEvOut rfl [RegistryOp.addOutput regId (.many ["world"]) 6],
   (update_output_complete_events_deep regSt2 regId 7 wEntry2 (by decide) rfl).2.2.2
     regSt3 regEvRem rfl (by decide)
     [RegistryOp.register "worker" 2 "next" "executing" none 8]⟩

/-- **C10**: `update(id, updates)` modifies at most the allowed field
set on the entry with that id — its `id`, `role`, `chatId`,
`startedAt`, `parentId` and `recentOutput` buffer (the `outRef` cell
and all existing heap cells) are unchanged, every other entry is
unchanged, the completed history and id counter are unchanged, and an
unknown id leaves the registry entirely unchanged (and throws
nothing). -/
theorem update_frame (st : RegistryState) (id : String) (u : UpdateFields) (now : Nat) :
    (lookupAgent st id = none → updateOp st id u now = (st, none)) ∧
    (∀ e, lookupAgent st id = some e →
      ∃ e2,
        (updateOp st id u now).1.agents =
          st.agents.map (fun p => if p.1 == id then (p.1, e2) else p) ∧
        e2.id = e.id ∧ e2.role = e.role ∧ e2.chatId = e.chatId ∧
        e2.startedAt = e.startedAt ∧ e2.parentId = e.parentId ∧
        e2.outRef = e.outRef ∧
        (updateOp st id u now).1.completedHistory = st.completedHistory ∧
        (updateOp st id u now).1.nextId = st.nextId ∧
        (∀ r, r < st.heap.length →
          (updateOp st id u now).1.heap.getD r [] = st.heap.getD r [])) := by
  constructor
  · intro h
    rw [updateOp, h]
  · intro e he
    simp only [updateOp, he, setAgent]
    refine ⟨_, rfl, ?_, ?_, ?_, ?_, ?_, ?_, ?_, ?_, ?_⟩
    · split <;> rfl
    · split <;> rfl
    · split <;> rfl
    · split <;> rfl
    · split <;> rfl
    · split <;> rfl
    · trivial
    · trivial
    · intro r hrlt
      exact getD_append_lt _ _ _ hrlt

/-- Witness for C10: an unknown id is a strict no-op, and updating the
registered worker changes only the allowed fields. -/
theorem update_frame_witness :
    updateOp regSt1 "no-such-id" u0 9 = (regSt1, none) ∧
    (∃ e2,
      (updateOp regSt1 regId u0 9).1.agents =
        regSt1.agents.map (fun p => if p.1 == regId then (p.1, e2) else p) ∧
      e2.id = wEntry.id ∧ e2.role = wEntry.role ∧ e2.chatId = wEntry.chatId ∧
      e2.startedAt = wEntry.startedAt ∧ e2.parentId = wEntry.parentId ∧
      e2.outRef = wEntry.outRef ∧
      (updateOp regSt1 regId u0 9).1.completedHistory = regSt1.completedHistory ∧
      (updateOp regSt1 regId u0 9).1.nextId = regSt1.nextId ∧
      (∀ r, r < regSt1.heap.length →
        (updateOp regSt1 regId u0 9).1.heap.getD r [] = regSt1.heap.getD r [])) :=
  ⟨(update_frame regSt1 "no-such-id" u0 9).1 rfl,
   (update_frame regSt1 regId u0 9).2 wEntry rfl⟩

/-- Witness for the amended C6 at 150s of silence with the warning not
yet issued. -/
theorem stall_thresholds_witness :
    ((executorStallTick 150000 false).warningEmitted = true ↔
      STALL_WARNING_MS ≤ 150000 ∧ false = false) ∧
    ((executorStallTick 150000 false).killed = true ↔ STALL_KILL_MS ≤ 150000) ∧
    ((orchestratorStallTick 150000 false).warningEmitted = true ↔
      STALL_WARNING_MS ≤ 150000 ∧ false = false) ∧
    (orchestratorStallTick 150000 false).killed = false ∧
    ((executorStallTick 150000 false).stallWarned = true ↔
      false = true ∨ STALL_WARNING_MS ≤ 150000) ∧
    (onActivity false).stallWarned = false ∧
    ((onActivity false).resumedEmitted = true ↔ false = true) :=
  stall_thresholds 150000 false

end Rumpbot
